import Mathlib

/-!
# SimpleShell: the shell side of the simple scheduler

A shallow embedding of `SimpleShell.c`.

* C strings are `List Char` (the characters before the terminating NUL).
* The shared `struct history_struct` is a record; `history` is indexed by `Int`, the
  value of the C index expression.  Indices `0 .. MAX_HISTORY-1` are the slots of the
  array; the embedding keeps every other index apart as well, so that the index used by
  each access stays visible in the state.
* The local arrays `arguments`, `commands` and `child_pids` are lists; the stores of a
  token loop are listed with their indices by `argumentWrites`.  In the shell process
  a store past the end of `arguments[MAX_WORDS+1]` or `commands[MAX_COMMANDS]` is
  undefined behaviour in C: the run ends there with `Halt.undefined`.
* The semaphore `mutex` is its counter.  `sem_wait` on a counter of `0` does not return:
  the shell is the only process of the embedding, nobody else posts.
* What a run does outside the table (prints, `fork`, `pipe`, `kill`, `waitpid`) is
  appended to a trace of events; what the operating system answers (pids, clock,
  the line read) is supplied by an `Env` record, one per iteration of `shell_loop`.
* A call that does not return to its caller ends the run with a `Halt`.  A library call
  that fails where the code answers with `exit(1)` is modelled for `fork`, `kill`,
  `pipe`, `close`, `waitpid` and `fgets`; `sem_wait` and `sem_post` do not fail.
-/

namespace SimpleShell

/-! ## Constants -/

/-- Value of `#define MAX_HISTORY 100`. -/
def MAX_HISTORY : Nat := 100
/-- Value of `#define MAX_SIZE 50`. -/
def MAX_SIZE : Nat := 50
/-- Value of `#define MAX_WORDS 10`. -/
def MAX_WORDS : Nat := 10
/-- Value of `#define MAX_COMMANDS 5`. -/
def MAX_COMMANDS : Nat := 5
/-- Signal number of `SIGCHLD` on Linux. -/
def SIGCHLD : Int := 17
/-- Signal number of `SIGSTOP` on Linux. -/
def SIGSTOP : Int := 19
/-- Smallest value of the C type `int`. -/
def INT_MIN : Int := -2147483648
/-- Largest value of the C type `int`. -/
def INT_MAX : Int := 2147483647
/-- Number of values of `unsigned long` (64 bit). -/
def ULONG_MOD : Nat := 2 ^ 64

/-! ## C strings -/

/-- A C string: its characters up to the terminating NUL. -/
abbrev CStr := List Char

/-- The test `*p==' ' || *p=='\t'` of the two trimming loops of `launch`. -/
def isBlank (c : Char) : Bool := c == ' ' || c == Char.ofNat 9

/-- The two loops at the head of `launch`: skip leading blanks, then overwrite
trailing blanks with NUL. -/
def trim (command : CStr) : CStr :=
  ((command.dropWhile isBlank).reverse.dropWhile isBlank).reverse

/-- The successive results of `strtok(buf, d)`, `strtok(NULL, d)`, ... up to the first
`NULL`, for the one-character delimiter string `d`: the maximal runs of characters
other than `d`.  `cur` holds, reversed, the run being read. -/
def strtokAux (d : Char) : CStr → CStr → List CStr
  | cur, [] => if cur.isEmpty then [] else [cur.reverse]
  | cur, c :: cs =>
    if c == d then
      (if cur.isEmpty then strtokAux d [] cs else cur.reverse :: strtokAux d [] cs)
    else strtokAux d (c :: cur) cs

/-- All tokens `strtok` yields for buffer `buf` and delimiter `d`. -/
def strtok (d : Char) (buf : CStr) : List CStr := strtokAux d [] buf

/-- The C library test `isspace` in the "C" locale. -/
def isspace (c : Char) : Bool :=
  c == ' ' || (9 ≤ c.toNat && c.toNat ≤ 13)

/-- The C library test `isdigit`. -/
def isdigit (c : Char) : Bool := 48 ≤ c.toNat && c.toNat ≤ 57

/-- The digit loop of `atoi`: reads decimal digits and stops at the first other
character. -/
def atoiDigits : Nat → CStr → Nat
  | acc, [] => acc
  | acc, c :: cs => if isdigit c then atoiDigits (acc * 10 + (c.toNat - 48)) cs else acc

/-- The sign and magnitude `atoi` reads after the leading white space. -/
def atoiSigned : CStr → Int
  | [] => 0
  | c :: cs =>
    if c == '-' then -((atoiDigits 0 cs : Nat) : Int)
    else if c == '+' then ((atoiDigits 0 cs : Nat) : Int)
    else ((atoiDigits 0 (c :: cs) : Nat) : Int)

/-- The C library function `atoi`: leading white space, an optional sign, decimal digits;
anything after the digits is ignored and a string without digits gives `0`.  `none`
when the value is not representable in `int`, where C leaves the result undefined. -/
def atoi (s : CStr) : Option Int :=
  let v := atoiSigned (s.dropWhile isspace)
  if INT_MIN ≤ v ∧ v ≤ INT_MAX then some v else none

/-! ## Data model -/

/-- The C `struct timeval`. -/
structure timeval where
  tv_sec : Int
  tv_usec : Int
deriving DecidableEq, Repr

/-- The C `struct Process`: one record of the job table. -/
structure Process where
  pid : Int
  priority : Int
  submit : Bool
  queue : Bool
  completed : Bool
  command : CStr
  start : timeval
  execution_time : Nat
  wait_time : Nat
  vruntime : Nat
deriving DecidableEq, Repr

/-- The C `struct history_struct`: the shared job table.  `mutex` is the counter of the
semaphore. -/
structure history_struct where
  history_count : Int
  ncpu : Int
  tslice : Int
  mutex : Nat
  history : Int → Process

/-- A file descriptor as the pipeline code uses it: standard input or output, or an
end of the `k`-th pipe created during the call. -/
inductive Fd where
  | stdin
  | stdout
  | pipeRead (k : Nat)
  | pipeWrite (k : Nat)
deriving DecidableEq, Repr

/-- What the shell does outside the job table, in program order. -/
inductive Event where
  /-- A `printf` of a fixed text (the text without its line breaks and rules). -/
  | print (text : String)
  /-- The six `printf`s of one record in `terminateShell`. -/
  | historyRow (sno : Int) (command : CStr) (pid : Int) (execution_time wait_time : Nat)
  /-- The `printf` of one job in the `jobs` built-in. -/
  | jobRow (pid priority : Int) (command : CStr)
  /-- The `fork` of `submit_process`; the child calls `execvp(argv[0], argv)`. -/
  | forkSubmit (pid : Int) (argv : List CStr)
  /-- The `fork` of `createChildProcess`; the child redirects its descriptors, splits
  `command` at spaces and calls `execvp`. -/
  | forkChild (pid : Int) (command : CStr) (input_fd output_fd : Fd)
  | kill (pid : Int) (sig : Int)
  | pipe (k : Nat)
  | close (fd : Fd)
  | waitpid (pid : Int)
  /-- The `printf("Abnormal termination of %d\n", pid)`. -/
  | abnormal (pid : Int)
  /-- The `printf("%d %s\n", pid, command)` of a background pipeline. -/
  | background (pid : Int) (command : CStr)
deriving DecidableEq, Repr

/-- The state of the shell process: the two globals the code uses and the trace. -/
structure Shell where
  process_table : history_struct
  scheduler_pid : Int
  trace : List Event

/-- Why a call does not return to its caller. -/
inductive Halt where
  /-- The call `sem_wait` found the counter at `0`. -/
  | blocked
  /-- The call `exit(code)`. -/
  | exit (code : Int)
  /-- The process is the child of a `fork` and goes on to `execvp`. -/
  | child
  /-- The C standard leaves the behaviour undefined. -/
  | undefined
deriving DecidableEq, Repr

/-- What the operating system answers during one iteration of `shell_loop`. -/
structure Env where
  /-- The buffer `fgets` filled (at most `MAX_SIZE` characters, the newline included when
  it was read), `none` when `fgets` returned `NULL`. -/
  fgets : Option CStr
  /-- Clock read by `startTime` in `shell_loop`. -/
  t_loop : timeval
  /-- Clock read by `startTime` in the `submit` branch of `launch`. -/
  t_submit : timeval
  /-- Clock read by `endTime` in `shell_loop`. -/
  t_end : timeval
  /-- Value `fork()` returns, for the `k`-th `fork` of the iteration. -/
  fork : Nat → Int
  /-- Value `kill(status, SIGSTOP)` returns. -/
  kill : Int
  /-- Value the `k`-th `pipe(pipes)` returns. -/
  pipe : Nat → Int
  /-- Value the `k`-th `close(pipes[1])` returns. -/
  close : Nat → Int
  /-- Value the `k`-th `waitpid` returns and whether `WIFEXITED(ret)` holds. -/
  waitpid : Nat → Int × Bool
  /-- Value the caller of `createProcessAndRun` finds when the function runs off its end
  without a `return`. -/
  retval : Int

/-! ## Table access -/

/-- The assignment `process_table->history[i] = r`, field assignments being of this
form with `r` the old record changed in the fields assigned. -/
def setRecord (pt : history_struct) (i : Int) (r : Process) : history_struct :=
  { pt with history := fun j => if j = i then r else pt.history j }

/-- The record updated in place: `process_table->history[i].f = ...`. -/
def modRecord (s : Shell) (i : Int) (f : Process → Process) : Shell :=
  { s with process_table := setRecord s.process_table i (f (s.process_table.history i)) }

/-- Append events to the trace. -/
def emit (s : Shell) (es : List Event) : Shell :=
  { s with trace := s.trace ++ es }

/-- The call `sem_wait(&process_table->mutex)`. -/
def sem_wait (s : Shell) : Except Halt Shell :=
  if s.process_table.mutex = 0 then .error .blocked
  else .ok { s with process_table := { s.process_table with mutex := s.process_table.mutex - 1 } }

/-- The call `sem_post(&process_table->mutex)`. -/
def sem_post (s : Shell) : Shell :=
  { s with process_table := { s.process_table with mutex := s.process_table.mutex + 1 } }

/-! ## Timing -/

/-- The function `endTime`, with `end` the clock `gettimeofday` reads: the difference in
microseconds, converted to `unsigned long`, divided by 1000. -/
def endTime (start : timeval) (end_ : timeval) : Nat :=
  (((end_.tv_sec * 1000000 + end_.tv_usec) - (start.tv_sec * 1000000 + start.tv_usec))
      % (ULONG_MOD : Int)).toNat / 1000

/-- The functions `startTime` and `gettimeofday` store the clock they read; the clock is
an answer of the environment, so nothing is computed here. -/
def startTime (now : timeval) : timeval := now

/-! ## Completion tracker -/

/-- The `for` loop of `sigchld_handler`, `n` iterations from index `i` on: the first
record with `pid == sender_pid` gets its execution time and its flag, then `break`. -/
def sigchld_scan (sender_pid : Int) (now : timeval) : Nat → Int → history_struct → history_struct
  | 0, _, pt => pt
  | n + 1, i, pt =>
    if (pt.history i).pid = sender_pid then
      setRecord pt i
        { pt.history i with
          execution_time :=
            ((pt.history i).execution_time + endTime (pt.history i).start now) % ULONG_MOD
          completed := true }
    else sigchld_scan sender_pid now n (i + 1) pt

/-- The function `sigchld_handler(signum, info, context)` with `si_pid = info->si_pid`
and `now` the clock `endTime` reads. -/
def sigchld_handler (signum : Int) (si_pid : Int) (now : timeval) (s : Shell) :
    Except Halt Shell :=
  if signum = SIGCHLD then
    if si_pid ≠ s.scheduler_pid then
      match sem_wait s with
      | .error h => .error h
      | .ok s1 =>
        let pt := sigchld_scan si_pid now s1.process_table.history_count.toNat 0 s1.process_table
        .ok (sem_post { s1 with process_table := pt })
    else .ok s
  else .ok s

/-! ## Printing the table -/

/-- The rows `terminateShell` prints: one for each `i` with `0 <= i < history_count`. -/
def historyRows (pt : history_struct) : List Event :=
  (List.range pt.history_count.toNat).map fun i =>
    Event.historyRow ((i : Int) + 1) (pt.history i).command (pt.history i).pid
      (pt.history i).execution_time (pt.history i).wait_time

/-- The function `terminateShell`. -/
def terminateShell (s : Shell) : Except Halt Shell :=
  match sem_wait s with
  | .error h => .error h
  | .ok s1 =>
    let s2 :=
      if s1.process_table.history_count > 0 then
        emit s1 (Event.print "Shell terminated. Scheduler terminated. Command history details:"
          :: historyRows s1.process_table)
      else s1
    .ok (sem_post s2)

/-- The rows the `jobs` built-in prints: the records below `history_count` with
`submit==true && completed==false`. -/
def jobRows (pt : history_struct) : List Event :=
  (List.range pt.history_count.toNat).filterMap fun i =>
    if (pt.history i).submit == true && (pt.history i).completed == false then
      some (Event.jobRow (pt.history i).pid (pt.history i).priority (pt.history i).command)
    else none

/-! ## Reading a line -/

/-- The test and assignment `if (input_len>0 && input[input_len-1]=='\n') input[input_len-1] = '\0';`
of `read_user_input`. -/
def chomp (buf : CStr) : CStr :=
  if buf.getLast? = some (Char.ofNat 10) then buf.dropLast else buf

/-- The function `read_user_input`: a trailing newline is removed and the line is copied
into the command of the record at `history_count`. -/
def read_user_input (env : Env) (s : Shell) : Except Halt (CStr × Shell) :=
  match env.fgets with
  | none => .error (.exit 1)
  | some buf =>
    let input := chomp buf
    match sem_wait s with
    | .error h => .error h
    | .ok s1 =>
      .ok (input, sem_post
        (modRecord s1 s1.process_table.history_count fun r => { r with command := input }))

/-! ## Submission -/

/-- The writes of the loop
`while (token != NULL){ arguments[argument_count++] = token; token = strtok(NULL, " "); }`
that `createChildProcess` and `submit_process` share: the pairs (index, token) of the
assignments `arguments[index] = token`, in program order, starting at `argument_count`. -/
def argumentWrites : Nat → List CStr → List (Nat × CStr)
  | _, [] => []
  | argument_count, token :: rest =>
    (argument_count, token) :: argumentWrites (argument_count + 1) rest

/-- Whether every store `array[index] = token` of the list addresses one of the `slots`
elements of the array. -/
def storesInside (slots : Nat) (writes : List (Nat × CStr)) : Bool :=
  writes.all fun w => decide (w.1 < slots)

/-- The tokens the loop of `submit_process` stores: the first `strtok` result, the
keyword, is dropped by the second call. -/
def submitTokens (command : CStr) : List CStr := (strtok ' ' command).drop 1

/-- The function `submit_process(command)`; `fork` and `kill` answer `env.fork 0` and
`env.kill`.  The token loop runs first: when it stores past `arguments[MAX_WORDS]`,
the behaviour is undefined from there on. -/
def submit_process (env : Env) (command : CStr) (s : Shell) : Except Halt (Int × Shell) :=
  let writes := argumentWrites 0 (submitTokens command)
  let arguments := writes.map Prod.snd
  let argument_count := arguments.length
  let hc := s.process_table.history_count
  let fork_and_stop (argv : List CStr) (s : Shell) : Except Halt (Int × Shell) :=
    let status := env.fork 0
    if status < 0 then .error (.exit 1)
    else if status = 0 then .error .child
    else
      let s1 := emit s [Event.forkSubmit status argv, Event.kill status SIGSTOP]
      if env.kill = -1 then .error (.exit 1) else .ok (status, s1)
  if !storesInside (MAX_WORDS + 1) writes then .error .undefined
  else if argument_count > 1 then
    match atoi (arguments.getD (argument_count - 1) []) with
    | none => .error .undefined
    | some priority =>
      if priority < 1 ∨ priority > 4 then
        .ok (-1, modRecord
          (emit s [Event.print "either invalid priority or you are passing arguments for a job"])
          hc fun r => { r with completed := true })
      else
        fork_and_stop (arguments.take (argument_count - 1))
          (modRecord s hc fun r => { r with priority := priority })
  else fork_and_stop arguments s

/-! ## Pipelines -/

/-- The parent side of `createChildProcess(command, input_fd, output_fd)`; `k` counts the
`fork`s of the iteration. -/
def createChildProcess (env : Env) (k : Nat) (command : CStr) (input_fd output_fd : Fd)
    (s : Shell) : Except Halt (Int × Shell) :=
  let status := env.fork k
  if status < 0 then .error (.exit 1)
  else if status = 0 then .error .child
  else .ok (status, emit s [Event.forkChild status command input_fd output_fd])

/-- The child side of `createChildProcess`: the tokens its loop stores in `arguments`, in
order, which `execvp` is then given.  With more than `MAX_WORDS` of them the stores, or
the final `NULL`, leave `arguments[MAX_WORDS+1]`. -/
def childArguments (command : CStr) : List CStr :=
  (argumentWrites 0 (strtok ' ' command)).map Prod.snd

/-- The first `for` loop of `createProcessAndRun`, over the stages before the last: a
pipe, a child writing into it, and the read end kept for the next stage.  Returns
`prev_read`, `child_pids` and the state. -/
def pipeLoop (env : Env) : List CStr → Nat → Fd → List Int → Shell →
    Except Halt (Fd × List Int × Shell)
  | [], _, prev_read, child_pids, s => .ok (prev_read, child_pids, s)
  | c :: cs, i, prev_read, child_pids, s =>
    if env.pipe i = -1 then .error (.exit 1)
    else
      match createChildProcess env i c prev_read (Fd.pipeWrite i) (emit s [Event.pipe i]) with
      | .error h => .error h
      | .ok (pid, s1) =>
        if pid < 0 then .error (.exit 1)
        else if env.close i = -1 then .error (.exit 1)
        else
          pipeLoop env cs (i + 1) (Fd.pipeRead i) (child_pids ++ [pid])
            (emit s1 [Event.close (Fd.pipeWrite i)])

/-- The second `for` loop of `createProcessAndRun`: wait for every child. -/
def waitLoop (env : Env) : List Int → Nat → Shell → Except Halt Shell
  | [], _, s => .ok s
  | p :: ps, i, s =>
    if (env.waitpid i).1 < 0 then .error (.exit 1)
    else
      waitLoop env ps (i + 1)
        (emit s (Event.waitpid p ::
          (if (env.waitpid i).2 then [] else [Event.abnormal (env.waitpid i).1])))

/-- The string at `command` once `strtok(command, "|")` (and the removal of a final `&`)
has written NULs into the buffer: the leading separators and the first stage. -/
def firstStageText (command : CStr) (stages : List CStr) : CStr :=
  command.takeWhile (fun c => c == '|') ++
    (match stages with
     | [] => []
     | [c] => if c.getLast? = some '&' then c.dropLast else c
     | c :: _ => c)

/-- The function `createProcessAndRun(command)`.  The loop that stores the stages runs
before the test of `command_count`: when it stores past `commands[MAX_COMMANDS-1]`, the
behaviour is undefined from there on. -/
def createProcessAndRun (env : Env) (command : CStr) (s : Shell) : Except Halt (Int × Shell) :=
  let writes := argumentWrites 0 (strtok '|' command)
  let commands := writes.map Prod.snd
  let command_count := commands.length
  if !storesInside MAX_COMMANDS writes then .error .undefined
  else if command_count > MAX_COMMANDS then
    .ok (1, emit s [Event.print "you have used more than 4 pipes, try again"])
  else
    match pipeLoop env commands.dropLast 0 Fd.stdin [] s with
    | .error h => .error h
    | .ok (prev_read, child_pids, s1) =>
      match commands.getLast? with
      | none => .error .undefined
      | some last =>
        let background_process : Bool := last.getLast? = some '&'
        let last1 := if background_process then last.dropLast else last
        match createChildProcess env (command_count - 1) last1 prev_read Fd.stdout s1 with
        | .error h => .error h
        | .ok (pid, s2) =>
          if pid < 0 then .error (.exit 1)
          else
            match sem_wait s2 with
            | .error h => .error h
            | .ok s3 =>
              let s4 := sem_post
                (modRecord s3 s3.process_table.history_count fun r => { r with pid := pid })
              if !background_process then
                match waitLoop env (child_pids ++ [pid]) 0 s4 with
                | .error h => .error h
                | .ok s5 => .ok (env.retval, s5)
              else
                .ok (env.retval,
                  emit s4 [Event.background pid (firstStageText command commands)])

/-! ## Dispatch and the control loop -/

/-- The function `launch(command)`. -/
def launch (env : Env) (command0 : CStr) (s : Shell) : Except Halt (Int × Shell) :=
  let command := trim command0
  if command.take 6 = "submit".toList then
    match sem_wait s with
    | .error h => .error h
    | .ok s1 =>
      let hc := s1.process_table.history_count
      let s2 := modRecord s1 hc fun r =>
        { r with submit := true, completed := false, priority := 1, queue := false }
      match submit_process env command s2 with
      | .error h => .error h
      | .ok (pid, s3) =>
        .ok (1, sem_post
          (modRecord s3 s3.process_table.history_count fun r =>
            { r with pid := pid, start := startTime env.t_submit }))
  else if command = "history".toList then
    match sem_wait s with
    | .error h => .error h
    | .ok s1 =>
      match terminateShell s1 with
      | .error h => .error h
      | .ok s2 => .ok (1, sem_post s2)
  else if command = "jobs".toList then
    match sem_wait s with
    | .error h => .error h
    | .ok s1 => .ok (1, sem_post (emit s1 (jobRows s1.process_table)))
  else if command = [] then
    .ok (1, { s with process_table :=
      { s.process_table with history_count := s.process_table.history_count - 1 } })
  else if command = "exit".toList then
    match terminateShell s with
    | .error h => .error h
    | .ok s1 => .ok (0, s1)
  else createProcessAndRun env command s

/-- The guarded block that ends the body of the loop in `shell_loop`: the record at
`history_count`, unless it is a submission, gets `execution_time = endTime(&start)`;
then `history_count++`. -/
def finalize (env : Env) (s : Shell) : Shell :=
  let hc := s.process_table.history_count
  let s1 :=
    if !(s.process_table.history hc).submit then
      modRecord s hc fun r =>
        { r with execution_time := endTime (s.process_table.history hc).start env.t_end }
    else s
  { s1 with process_table :=
    { s1.process_table with history_count := s1.process_table.history_count + 1 } }

/-- One pass through the body of the `do ... while(status)` loop of `shell_loop`; the
result is `status` and the state. -/
def shell_iteration (env : Env) (s : Shell) : Except Halt (Int × Shell) :=
  match read_user_input env (emit s [Event.print "AVShell:~$ "]) with
  | .error h => .error h
  | .ok (command, s1) =>
    match sem_wait s1 with
    | .error h => .error h
    | .ok s2 =>
      let s3 := sem_post
        (modRecord s2 s2.process_table.history_count fun r =>
          { r with pid := -1, submit := false, wait_time := 0, execution_time := 0,
                   vruntime := 0, start := startTime env.t_loop })
      match launch env command s3 with
      | .error h => .error h
      | .ok (status, s4) =>
        match sem_wait s4 with
        | .error h => .error h
        | .ok s5 =>
          .ok (status, sem_post (finalize env s5))

/-- The state in which `shell_loop` calls `launch` when `fgets` has filled `buf` and no
`sem_wait` blocks: the prompt is printed and the record at `history_count` holds the line,
`pid = -1`, `submit = false`, zero times and the start time. -/
def pendingState (env : Env) (buf : CStr) (s : Shell) : Shell :=
  modRecord (emit s [Event.print "AVShell:~$ "]) s.process_table.history_count fun r =>
    { r with command := chomp buf, pid := -1, submit := false, wait_time := 0,
             execution_time := 0, vruntime := 0, start := startTime env.t_loop }

/-- The loop `do ... while(status)` of `shell_loop`, run for the iterations whose
answers are supplied. -/
def shell_loop : List Env → Shell → Except Halt Shell
  | [], s => .ok s
  | env :: envs, s =>
    match shell_iteration env s with
    | .error h => .error h
    | .ok (status, s1) => if status ≠ 0 then shell_loop envs s1 else .ok s1

/-! ## The state `main` hands to `shell_loop`, and sample answers of the environment -/

/-- A record of a freshly created, zero-filled shared memory object. -/
def zeroProcess : Process :=
  { pid := 0, priority := 0, submit := false, queue := false, completed := false,
    command := [], start := { tv_sec := 0, tv_usec := 0 },
    execution_time := 0, wait_time := 0, vruntime := 0 }

/-- The state when `main` calls `shell_loop`: `history_count=0`, the two arguments,
`sem_init(&mutex, 1, 1)`, the pid of the forked scheduler, zero-filled records. -/
def main_state (ncpu tslice scheduler : Int) : Shell :=
  { process_table :=
      { history_count := 0, ncpu := ncpu, tslice := tslice, mutex := 1,
        history := fun _ => zeroProcess },
    scheduler_pid := scheduler,
    trace := [] }

/-- Sample answers for one iteration in which `line` is read and every call succeeds:
the `k`-th `fork` returns `first_pid + k`, each `waitpid` reports a normal exit. -/
def sampleEnv (line : String) (first_pid : Int) : Env :=
  { fgets := some (line.toList ++ [Char.ofNat 10]),
    t_loop := { tv_sec := 10, tv_usec := 0 },
    t_submit := { tv_sec := 10, tv_usec := 250 },
    t_end := { tv_sec := 12, tv_usec := 500000 },
    fork := fun k => first_pid + k,
    kill := 0,
    pipe := fun _ => 0,
    close := fun _ => 0,
    waitpid := fun k => (first_pid + k, true),
    retval := 1 }

/-- Sample answers for a later iteration in which an empty line is read: the clock
stands at 20 s when the loop starts the record and at 21 s when it ends it. -/
def sampleEmptyLineEnv : Env :=
  { sampleEnv "" 200 with
    t_loop := { tv_sec := 20, tv_usec := 0 }
    t_end := { tv_sec := 21, tv_usec := 0 } }

/-- A sample state: three records with pids 5, 7 and 7, the first one completed and the
second one submitted, the guard free, the scheduler running as pid 100. -/
def sampleShell : Shell :=
  { process_table :=
      { history_count := 3, ncpu := 2, tslice := 10, mutex := 1,
        history := fun j =>
          { zeroProcess with
            pid := if j = 0 then 5 else 7, submit := decide (j = 1),
            completed := decide (j = 0) } },
    scheduler_pid := 100,
    trace := [] }

/-- The sample state at a moment when the shell holds the guard (counter 0), as inside
the guarded sections of `launch`, `shell_loop` and `read_user_input`. -/
def sampleShellHeld : Shell :=
  { sampleShell with process_table := { sampleShell.process_table with mutex := 0 } }

/-! ## Statements about the table -/

/-- The table of `t` has the `history_count` of `s` and the records of `s`, except
possibly for the record at index `i`. -/
def Frame (i : Int) (s t : Shell) : Prop :=
  t.process_table.history_count = s.process_table.history_count ∧
  ∀ j, j ≠ i → t.process_table.history j = s.process_table.history j

/-- One step of the system as the table sees it: an iteration of the control loop with
the answers `env`, or a call of the completion tracker. -/
inductive Step where
  | line (env : Env)
  | signal (signum si_pid : Int) (now : timeval)

/-- The state after a step. -/
def step : Step → Shell → Except Halt Shell
  | .line env, s =>
    match shell_iteration env s with
    | .error h => .error h
    | .ok (_, s1) => .ok s1
  | .signal signum si_pid now, s => sigchld_handler signum si_pid now s

/-- The state after a sequence of steps. -/
def run : List Step → Shell → Except Halt Shell
  | [], s => .ok s
  | st :: rest, s =>
    match step st s with
    | .error h => .error h
    | .ok s1 => run rest s1

end SimpleShell

/-! # Theorems -/

namespace SimpleShell

/-! ## Submission: `submit_process` and the `submit` branch of `launch` -/

theorem argumentWrites_snd (toks : List CStr) (k : Nat) :
    (argumentWrites k toks).map Prod.snd = toks := by
  induction toks generalizing k with
  | nil => rfl
  | cons t ts ih => simp [argumentWrites, ih]

theorem argumentWrites_fst (toks : List CStr) (k : Nat) :
    (argumentWrites k toks).map Prod.fst = List.range' k toks.length := by
  induction toks generalizing k with
  | nil => rfl
  | cons t ts ih => simp [argumentWrites, ih, List.range'_succ]

theorem storesInside_argumentWrites_from (slots : Nat) (toks : List CStr) (k : Nat) :
    storesInside slots (argumentWrites k toks) = true ↔
      (toks = [] ∨ k + toks.length ≤ slots) := by
  induction toks generalizing k with
  | nil => simp [storesInside, argumentWrites]
  | cons t ts ih =>
    have ih1 := ih (k + 1)
    simp only [storesInside] at ih1 ⊢
    simp only [argumentWrites, List.all_cons, Bool.and_eq_true, decide_eq_true_eq, ih1,
      List.length_cons]
    constructor
    · rintro ⟨h1, h2 | h2⟩
      · subst h2
        right
        simp only [List.length_nil]
        omega
      · right
        omega
    · rintro (h | h)
      · cases h
      · refine ⟨by omega, ?_⟩
        by_cases hts : ts = []
        · exact Or.inl hts
        · exact Or.inr (by omega)

theorem storesInside_argumentWrites (slots : Nat) (toks : List CStr) :
    storesInside slots (argumentWrites 0 toks) = decide (toks.length ≤ slots) := by
  rw [Bool.eq_iff_iff, storesInside_argumentWrites_from, decide_eq_true_eq]
  constructor
  · rintro (h | h)
    · subst h
      exact Nat.zero_le _
    · omega
  · intro h
    exact Or.inr (by omega)

theorem argumentWrites_mem_of_lt (toks : List CStr) (k : Nat) (h : k < toks.length) :
    ∃ token, (k, token) ∈ argumentWrites 0 toks := by
  have hk : k ∈ (argumentWrites 0 toks).map Prod.fst := by
    rw [argumentWrites_fst]
    simp [List.mem_range'_1, h]
  obtain ⟨w, hw, hwk⟩ := List.mem_map.1 hk
  exact ⟨w.2, by rw [← hwk]; exact hw⟩

theorem submit_process_overflow (env : Env) (t : Shell) (command : CStr)
    (h : MAX_WORDS + 1 < (submitTokens command).length) :
    submit_process env command t = .error Halt.undefined := by
  have hn : ¬ (submitTokens command).length ≤ MAX_WORDS + 1 := by omega
  simp only [submit_process, storesInside_argumentWrites]
  simp [hn]

theorem submit_process_accept (env : Env) (t : Shell) (command : CStr) (argv : List CStr)
    (last : CStr) (p q : Int)
    (htok : submitTokens command = argv ++ [last]) (hmin : 1 ≤ argv.length)
    (hbound : argv.length + 1 ≤ MAX_WORDS + 1)
    (hlast : atoi last = some p) (hp1 : 1 ≤ p) (hp4 : p ≤ 4)
    (hfork : env.fork 0 = q) (hq : 0 < q) (hkill : env.kill ≠ -1) :
    submit_process env command t =
      .ok (q, emit (modRecord t t.process_table.history_count fun r => { r with priority := p })
        [Event.forkSubmit q argv, Event.kill q SIGSTOP]) := by
  have hlen : (argv ++ [last]).length - 1 = argv.length := by simp
  have h1 : ¬ (p < 1 ∨ p > 4) := by omega
  have h2 : ¬ q < 0 := by omega
  have h3 : ¬ q = 0 := by omega
  have hin : (argv ++ [last]).length ≤ MAX_WORDS + 1 := by simpa using hbound
  simp only [submit_process, argumentWrites_snd, storesInside_argumentWrites, htok, hlen]
  have hgt : (argv ++ [last]).length > 1 := by simp; omega
  have hne : argv ≠ [] := by intro h; simp [h] at hmin
  have hnot : ¬ MAX_WORDS < argv.length := by omega
  simp [hin, hnot, hgt, hlast, h1, hfork, h2, h3, hkill, hne]


theorem submit_process_reject (env : Env) (t : Shell) (command : CStr) (argv : List CStr)
    (last : CStr) (p : Int)
    (htok : submitTokens command = argv ++ [last]) (hmin : 1 ≤ argv.length)
    (hbound : argv.length + 1 ≤ MAX_WORDS + 1)
    (hlast : atoi last = some p) (hp : p < 1 ∨ p > 4) :
    submit_process env command t =
      .ok (-1, modRecord
        (emit t [Event.print "either invalid priority or you are passing arguments for a job"])
        t.process_table.history_count fun r => { r with completed := true }) := by
  have hlen : (argv ++ [last]).length - 1 = argv.length := by simp
  have hgt : (argv ++ [last]).length > 1 := by simp; omega
  have hin : (argv ++ [last]).length ≤ MAX_WORDS + 1 := by simpa using hbound
  simp only [submit_process, argumentWrites_snd, storesInside_argumentWrites, htok, hlen]
  have hne : argv ≠ [] := by intro h; simp [h] at hmin
  have hnot : ¬ MAX_WORDS < argv.length := by omega
  simp [hin, hnot, hgt, hlast, hp, hne]

theorem submit_process_atoi_undefined (env : Env) (t : Shell) (command : CStr)
    (argv : List CStr) (last : CStr)
    (htok : submitTokens command = argv ++ [last]) (hmin : 1 ≤ argv.length)
    (hbound : argv.length + 1 ≤ MAX_WORDS + 1) (hlast : atoi last = none) :
    submit_process env command t = .error Halt.undefined := by
  have hlen : (argv ++ [last]).length - 1 = argv.length := by simp
  have hgt : (argv ++ [last]).length > 1 := by simp; omega
  have hin : (argv ++ [last]).length ≤ MAX_WORDS + 1 := by simpa using hbound
  simp only [submit_process, argumentWrites_snd, storesInside_argumentWrites, htok, hlen]
  have hne : argv ≠ [] := by intro h; simp [h] at hmin
  have hnot : ¬ MAX_WORDS < argv.length := by omega
  simp [hin, hnot, hgt, hlast, hne]

theorem submit_process_default (env : Env) (t : Shell) (command : CStr) (q : Int)
    (htok : (submitTokens command).length ≤ 1)
    (hfork : env.fork 0 = q) (hq : 0 < q) (hkill : env.kill ≠ -1) :
    submit_process env command t =
      .ok (q, emit t [Event.forkSubmit q (submitTokens command), Event.kill q SIGSTOP]) := by
  have h2 : ¬ q < 0 := by omega
  have h3 : ¬ q = 0 := by omega
  have hgt : ¬ (submitTokens command).length > 1 := by omega
  have hin : (submitTokens command).length ≤ MAX_WORDS + 1 := by
    have : (1 : Nat) ≤ MAX_WORDS + 1 := by decide
    omega
  simp only [submit_process, argumentWrites_snd, storesInside_argumentWrites]
  simp [hin, hgt, hfork, h2, h3, hkill]

/-- The record `launch` leaves at the pending index when a submission is accepted. -/
theorem launch_submit_of_ok (env : Env) (s : Shell) (line : CStr) (pid : Int) (t : Shell)
    (hkw : (trim line).take 6 = "submit".toList)
    (hfree : 0 < s.process_table.mutex)
    (hsub : submit_process env (trim line)
        (modRecord { s with process_table := { s.process_table with mutex := s.process_table.mutex - 1 } }
          s.process_table.history_count fun r =>
          { r with submit := true, completed := false, priority := 1, queue := false }) = .ok (pid, t)) :
    launch env line s = .ok (1, sem_post
          (modRecord t t.process_table.history_count fun r =>
            { r with pid := pid, start := startTime env.t_submit })) := by
  have hm : s.process_table.mutex ≠ 0 := by omega
  simp only [launch, hkw, sem_wait, hm]
  simp only [↓reduceIte, modRecord, setRecord] at hsub ⊢
  rw [hsub]

/-- The `submit` branch of `launch` does not return when `submit_process` does not. -/
theorem launch_submit_of_error (env : Env) (s : Shell) (line : CStr) (e : Halt)
    (hkw : (trim line).take 6 = "submit".toList)
    (hfree : 0 < s.process_table.mutex)
    (hsub : ∀ t, submit_process env (trim line) t = .error e) :
    launch env line s = .error e := by
  have hm : s.process_table.mutex ≠ 0 := by omega
  simp only [launch, hkw, sem_wait, hm]
  simp only [↓reduceIte, hsub]

/-- C1: a submit line with two to ten tokens after the keyword whose last token reads as
an integer `p` with `1 <= p <= 4` (as the decimal numeral of `p` does), when `fork`
answers a pid `q > 0` (and `kill` succeeds, the guard being free on entry):
`submit_process` returns `q`, the child is given exactly the tokens before the last one,
and `launch` returns leaving the pending record with `pid = q`, `priority = p`,
`submit = true`, `completed = false`, `queue = false`. -/
theorem submit_valid_priority_record (env : Env) (s : Shell) (line : CStr) (argv : List CStr)
    (last : CStr) (p q : Int)
    (hkw : (trim line).take 6 = "submit".toList)
    (htok : submitTokens (trim line) = argv ++ [last])
    (hmin : 1 ≤ argv.length) (_hmax : argv.length + 1 ≤ MAX_WORDS)
    (hlast : atoi last = some p) (hp1 : 1 ≤ p) (hp4 : p ≤ 4)
    (hfork : env.fork 0 = q) (hq : 0 < q) (hkill : env.kill ≠ -1)
    (hfree : 0 < s.process_table.mutex) :
    (∀ t, ∃ t1, submit_process env (trim line) t = .ok (q, t1) ∧
        t1.trace = t.trace ++ [Event.forkSubmit q argv, Event.kill q SIGSTOP]) ∧
    ∃ s1, launch env line s = .ok (1, s1) ∧
      s1.trace = s.trace ++ [Event.forkSubmit q argv, Event.kill q SIGSTOP] ∧
      s1.process_table.history_count = s.process_table.history_count ∧
      s1.process_table.mutex = s.process_table.mutex ∧
      s1.process_table.history s.process_table.history_count =
        { s.process_table.history s.process_table.history_count with
          pid := q, priority := p, submit := true, completed := false, queue := false,
          start := env.t_submit } := by
  have hbound : argv.length + 1 ≤ MAX_WORDS + 1 := by omega
  refine ⟨fun t => ⟨_, submit_process_accept env t _ argv last p q htok hmin hbound hlast
    hp1 hp4 hfork hq hkill, by simp [emit, modRecord]⟩, ?_⟩
  refine ⟨_, launch_submit_of_ok env s line q _ hkw hfree
    (submit_process_accept env _ _ argv last p q htok hmin hbound hlast hp1 hp4 hfork hq
      hkill), ?_⟩
  have hm : s.process_table.mutex - 1 + 1 = s.process_table.mutex := by omega
  simp [emit, modRecord, setRecord, sem_post, startTime, hm]

/-- C2 (the code inside and outside the array): on a submit line with two to eleven
tokens after the keyword whose last token reads as an `int` `p` with `p < 1` or `p > 4`,
whatever `fork` would answer, no process is created (the trace gains only the message),
`submit_process` returns `-1`, and `launch` returns `1` leaving the pending record with
`submit = true`, `completed = true`, `pid = -1`.  On the failing input
`submit a b c d e f g h i j k 7`, 30 characters with 12 tokens after the keyword, the
token loop stores the last token at `arguments[11]`, past the array, before the priority
is looked at: the behaviour is undefined and `launch` is not shown to return.  On
`submit ls 4294967298` the value of the last token does not fit `int`, `atoi` is
undefined there, and again the rejection is not reached. -/
theorem submit_invalid_priority_only_within_array :
    (∀ (env : Env) (s : Shell) (line : CStr) (argv : List CStr) (last : CStr) (p : Int),
      (trim line).take 6 = "submit".toList →
      submitTokens (trim line) = argv ++ [last] →
      1 ≤ argv.length → argv.length + 1 ≤ MAX_WORDS + 1 →
      atoi last = some p → (p < 1 ∨ p > 4) →
      0 < s.process_table.mutex →
      (∀ t, ∃ t1, submit_process env (trim line) t = .ok (-1, t1) ∧
        t1.trace = t.trace ++
          [Event.print "either invalid priority or you are passing arguments for a job"]) ∧
      ∃ s1, launch env line s = .ok (1, s1) ∧
        s1.trace = s.trace ++
          [Event.print "either invalid priority or you are passing arguments for a job"] ∧
        s1.process_table.history_count = s.process_table.history_count ∧
        s1.process_table.mutex = s.process_table.mutex ∧
        s1.process_table.history s.process_table.history_count =
          { s.process_table.history s.process_table.history_count with
            pid := -1, priority := 1, submit := true, completed := true, queue := false,
            start := env.t_submit }) ∧
    ("submit a b c d e f g h i j k 7".toList.length ≤ MAX_SIZE ∧
      atoi "7".toList = some 7 ∧
      (11, "7".toList) ∈
        argumentWrites 0 (submitTokens (trim "submit a b c d e f g h i j k 7".toList)) ∧
      ¬ (11 < MAX_WORDS + 1) ∧
      launch (sampleEnv "submit a b c d e f g h i j k 7" 200)
        "submit a b c d e f g h i j k 7".toList (main_state 2 10 100) =
          .error Halt.undefined) ∧
    (submitTokens (trim "submit ls 4294967298".toList) = ["ls".toList, "4294967298".toList] ∧
      atoi "4294967298".toList = none ∧
      launch (sampleEnv "submit ls 4294967298" 200) "submit ls 4294967298".toList
        (main_state 2 10 100) = .error Halt.undefined) := by
  refine ⟨?_, ⟨by decide, by decide, by decide, by decide, ?_⟩, ⟨by decide, by decide, ?_⟩⟩
  · intro env s line argv last p hkw htok hmin hbound hlast hp hfree
    refine ⟨fun t => ⟨_, submit_process_reject env t _ argv last p htok hmin hbound hlast hp,
      by simp [emit, modRecord]⟩, ?_⟩
    refine ⟨_, launch_submit_of_ok env s line (-1) _ hkw hfree
      (submit_process_reject env _ _ argv last p htok hmin hbound hlast hp), ?_⟩
    have hm : s.process_table.mutex - 1 + 1 = s.process_table.mutex := by omega
    simp [emit, modRecord, setRecord, sem_post, startTime, hm]
  · exact launch_submit_of_error _ _ _ _ (by decide) (by decide)
      (fun t => submit_process_overflow _ t _ (by decide))
  · exact launch_submit_of_error _ _ _ _ (by decide) (by decide)
      (fun t => submit_process_atoi_undefined _ t _ ["ls".toList] "4294967298".toList
        (by decide) (by decide) (by decide) (by decide))

theorem submit_valid_priority_record_witness :
    ∃ s1, launch (sampleEnv "submit ls -l 3" 200) "submit ls -l 3  ".toList (main_state 2 10 100)
        = .ok (1, s1) ∧
      s1.trace = [Event.forkSubmit 200 ["ls".toList, "-l".toList], Event.kill 200 SIGSTOP] ∧
      (s1.process_table.history 0).pid = 200 ∧ (s1.process_table.history 0).priority = 3 ∧
      (s1.process_table.history 0).completed = false := by
  obtain ⟨_, s1, h1, h2, _, _, h5⟩ :=
    submit_valid_priority_record (sampleEnv "submit ls -l 3" 200) (main_state 2 10 100)
      "submit ls -l 3  ".toList ["ls".toList, "-l".toList] "3".toList 3 200
      (by decide) (by decide) (by decide) (by decide) (by decide) (by decide) (by decide)
      rfl (by decide) (by decide) (by decide)
  refine ⟨s1, h1, h2, ?_, ?_, ?_⟩ <;> · simp only [main_state] at h5; rw [h5]


theorem submit_invalid_priority_only_within_array_witness :
    ∃ s1, launch (sampleEnv "submit ls 7" 200) "submit ls 7".toList (main_state 2 10 100)
        = .ok (1, s1) ∧
      s1.trace = [Event.print "either invalid priority or you are passing arguments for a job"] ∧
      (s1.process_table.history 0).pid = -1 ∧ (s1.process_table.history 0).submit = true ∧
      (s1.process_table.history 0).completed = true := by
  obtain ⟨_, s1, h1, h2, _, _, h5⟩ :=
    submit_invalid_priority_only_within_array.1 (sampleEnv "submit ls 7" 200)
      (main_state 2 10 100) "submit ls 7".toList ["ls".toList] "7".toList 7
      (by decide) (by decide) (by decide) (by decide) (by decide) (by decide) (by decide)
  refine ⟨s1, h1, h2, ?_, ?_, ?_⟩ <;> · simp only [main_state] at h5; rw [h5]

/-- C3 (as amended): on a submit line the default priority 1 is used exactly when at most
one token follows the keyword; that token, whatever it is, is the whole argv and a
process is created.  When two to eleven tokens follow, so that all of them fit
`arguments[MAX_WORDS+1]`, the last one is always taken out of argv and read as the
priority: an `int` value in `[1,4]` becomes the priority of the job run with the
remaining tokens, any other `int` value rejects the submission. -/
theorem submit_default_priority_single_token (env : Env) (s : Shell) (line : CStr) (q : Int)
    (hkw : (trim line).take 6 = "submit".toList)
    (hfork : env.fork 0 = q) (hq : 0 < q) (hkill : env.kill ≠ -1)
    (hfree : 0 < s.process_table.mutex) :
    ((submitTokens (trim line)).length ≤ 1 →
      ∃ s1, launch env line s = .ok (1, s1) ∧
        s1.trace = s.trace ++
          [Event.forkSubmit q (submitTokens (trim line)), Event.kill q SIGSTOP] ∧
        s1.process_table.history s.process_table.history_count =
          { s.process_table.history s.process_table.history_count with
            pid := q, priority := 1, submit := true, completed := false, queue := false,
            start := env.t_submit }) ∧
    (∀ (argv : List CStr) (last : CStr) (v : Int),
      submitTokens (trim line) = argv ++ [last] → 1 ≤ argv.length →
      argv.length + 1 ≤ MAX_WORDS + 1 → atoi last = some v →
      ∃ s1, launch env line s = .ok (1, s1) ∧
        ((1 ≤ v ∧ v ≤ 4) →
          s1.trace = s.trace ++ [Event.forkSubmit q argv, Event.kill q SIGSTOP] ∧
          s1.process_table.history s.process_table.history_count =
            { s.process_table.history s.process_table.history_count with
              pid := q, priority := v, submit := true, completed := false, queue := false,
              start := env.t_submit }) ∧
        ((v < 1 ∨ 4 < v) →
          s1.trace = s.trace ++
            [Event.print "either invalid priority or you are passing arguments for a job"] ∧
          s1.process_table.history s.process_table.history_count =
            { s.process_table.history s.process_table.history_count with
              pid := -1, priority := 1, submit := true, completed := true, queue := false,
              start := env.t_submit })) := by
  constructor
  · intro hlen
    refine ⟨_, launch_submit_of_ok env s line q _ hkw hfree
      (submit_process_default env _ _ q hlen hfork hq hkill), ?_⟩
    simp [emit, modRecord, setRecord, sem_post, startTime]
  · intro argv last v htok hmin hbound hlast
    by_cases hv : 1 ≤ v ∧ v ≤ 4
    · refine ⟨_, launch_submit_of_ok env s line q _ hkw hfree
        (submit_process_accept env _ _ argv last v q htok hmin hbound hlast hv.1 hv.2 hfork hq
          hkill),
        fun _ => ?_, fun h => ?_⟩
      · simp [emit, modRecord, setRecord, sem_post, startTime]
      · omega
    · have hv2 : v < 1 ∨ v > 4 := by omega
      refine ⟨_, launch_submit_of_ok env s line (-1) _ hkw hfree
        (submit_process_reject env _ _ argv last v htok hmin hbound hlast hv2),
        fun h => absurd h hv, fun _ => ?_⟩
      simp [emit, modRecord, setRecord, sem_post, startTime]

theorem submit_default_priority_single_token_witness :
    ∃ s1, launch (sampleEnv "submit 2x" 200) "submit 2x".toList (main_state 2 10 100)
        = .ok (1, s1) ∧
      s1.trace = [Event.forkSubmit 200 ["2x".toList], Event.kill 200 SIGSTOP] ∧
      (s1.process_table.history 0).priority = 1 := by
  obtain ⟨s1, h1, h2, h3⟩ :=
    (submit_default_priority_single_token (sampleEnv "submit 2x" 200) (main_state 2 10 100)
      "submit 2x".toList 200 (by decide) rfl (by decide) (by decide) (by decide)).1 (by decide)
  refine ⟨s1, h1, h2, ?_⟩
  simp only [main_state] at h3; rw [h3]

/-- C3 (counterexample): on `submit ls -l` the last token is no bare integer, yet the job is
not accepted: the trace gains only the rejection message, no process is created, and the
record is completed with `pid = -1`.  On `submit ls 2x` the token `2x` is taken as
priority 2 and removed from argv. -/
theorem submit_with_argument_not_default :
    (∃ s1, launch (sampleEnv "submit ls -l" 200) "submit ls -l".toList (main_state 2 10 100)
        = .ok (1, s1) ∧
      submitTokens (trim "submit ls -l".toList) = ["ls".toList, "-l".toList] ∧
      s1.trace = [Event.print "either invalid priority or you are passing arguments for a job"] ∧
      (s1.process_table.history 0).pid = -1 ∧
      (s1.process_table.history 0).completed = true) ∧
    (∃ s1, launch (sampleEnv "submit ls 2x" 200) "submit ls 2x".toList (main_state 2 10 100)
        = .ok (1, s1) ∧
      s1.trace = [Event.forkSubmit 200 ["ls".toList], Event.kill 200 SIGSTOP] ∧
      (s1.process_table.history 0).priority = 2) := by
  constructor
  · refine ⟨_, launch_submit_of_ok _ _ _ (-1) _ (by decide) (by decide)
      (submit_process_reject _ _ _ ["ls".toList] "-l".toList 0 (by decide) (by decide)
        (by decide) (by decide) (by decide)), by decide, ?_, ?_, ?_⟩ <;>
      simp [emit, modRecord, setRecord, sem_post, main_state]
  · refine ⟨_, launch_submit_of_ok _ _ _ 200 _ (by decide) (by decide)
      (submit_process_accept _ _ _ ["ls".toList] "2x".toList 2 200 (by decide) (by decide)
        (by decide) (by decide) (by decide) (by decide) rfl (by decide) (by decide)), ?_, ?_⟩ <;>
      simp [emit, modRecord, setRecord, sem_post, main_state]

/-! ## Completion tracker -/

theorem sigchld_scan_none (sender : Int) (now : timeval) (n : Nat) (i : Int)
    (pt : history_struct)
    (h : ∀ j, i ≤ j → j < i + n → (pt.history j).pid ≠ sender) :
    sigchld_scan sender now n i pt = pt := by
  induction n generalizing i with
  | zero => rfl
  | succ n ih =>
    have h0 : (pt.history i).pid ≠ sender := h i (le_refl i) (by push_cast; omega)
    simp only [sigchld_scan, h0, if_false]
    exact ih (i + 1) fun j hj1 hj2 => h j (by omega) (by push_cast; omega)

theorem sigchld_scan_first (sender : Int) (now : timeval) (n : Nat) (i m : Int)
    (pt : history_struct) (hm1 : i ≤ m) (hm2 : m < i + n)
    (hpid : (pt.history m).pid = sender)
    (hfirst : ∀ j, i ≤ j → j < m → (pt.history j).pid ≠ sender) :
    sigchld_scan sender now n i pt =
      setRecord pt m
        { pt.history m with
          execution_time :=
            ((pt.history m).execution_time + endTime (pt.history m).start now) % ULONG_MOD
          completed := true } := by
  induction n generalizing i with
  | zero => exact absurd hm2 (by simp; omega)
  | succ n ih =>
    by_cases him : i = m
    · subst him
      simp only [sigchld_scan, hpid, if_true]
    · have h0 : (pt.history i).pid ≠ sender := hfirst i (le_refl i) (by omega)
      simp only [sigchld_scan, h0, if_false]
      exact ih (i + 1) (by omega) (by push_cast at hm2; omega)
        fun j hj1 hj2 => hfirst j (by omega) hj2

theorem sem_post_after_wait (s : Shell) (hfree : 0 < s.process_table.mutex) :
    sem_post { s with process_table :=
      { s.process_table with mutex := s.process_table.mutex - 1 } } = s := by
  obtain ⟨⟨c, n, t, m, h⟩, sp, tr⟩ := s
  simp only at hfree
  simp only [sem_post]
  congr 2
  omega

theorem sem_post_setRecord_after_wait (s : Shell) (i : Int) (r : Process)
    (hfree : 0 < s.process_table.mutex) :
    sem_post { s with process_table :=
      (setRecord { s.process_table with mutex := s.process_table.mutex - 1 } i r) } =
      { s with process_table := setRecord s.process_table i r } := by
  obtain ⟨⟨c, n, t, m, h⟩, sp, tr⟩ := s
  simp only at hfree
  simp only [sem_post, setRecord]
  congr 2
  omega

/-- C4 (the code with the guard free and with the guard held): the completion tracker,
called for `SIGCHLD`.  If the reporting pid is the scheduler's, the state is returned
unchanged, whatever the guard.  With the guard free: if no record at an index
`0 <= i < history_count` has that pid the state is returned unchanged; otherwise the
result is the state with the record at the smallest such index replaced by itself with
`execution_time` increased (in `unsigned long`) by `endTime` of its start and
`completed = true`: every other field, every other record, `history_count` and the
guard are as before.  With the guard held (counter 0) and a pid other than the
scheduler's, the tracker stops in its `sem_wait`: it does not return and no record is
completed.  `endTime` is the elapsed time in milliseconds when the clock has not gone
back. -/
theorem sigchld_handler_free_or_held (s : Shell) (si_pid : Int) (now : timeval) :
    (si_pid = s.scheduler_pid → sigchld_handler SIGCHLD si_pid now s = .ok s) ∧
    (0 < s.process_table.mutex →
      (∀ i, 0 ≤ i → i < s.process_table.history_count →
          (s.process_table.history i).pid ≠ si_pid) →
      sigchld_handler SIGCHLD si_pid now s = .ok s) ∧
    (0 < s.process_table.mutex → si_pid ≠ s.scheduler_pid →
      ∀ i, 0 ≤ i → i < s.process_table.history_count →
        (s.process_table.history i).pid = si_pid →
        (∀ j, 0 ≤ j → j < i → (s.process_table.history j).pid ≠ si_pid) →
        sigchld_handler SIGCHLD si_pid now s =
          .ok { s with process_table := (setRecord s.process_table i
            { s.process_table.history i with
              execution_time := ((s.process_table.history i).execution_time +
                endTime (s.process_table.history i).start now) % ULONG_MOD
              completed := true }) }) ∧
    (s.process_table.mutex = 0 → si_pid ≠ s.scheduler_pid →
      sigchld_handler SIGCHLD si_pid now s = .error Halt.blocked) ∧
    (∀ start : timeval,
      start.tv_sec * 1000000 + start.tv_usec ≤ now.tv_sec * 1000000 + now.tv_usec →
      (now.tv_sec * 1000000 + now.tv_usec) - (start.tv_sec * 1000000 + start.tv_usec)
        < (ULONG_MOD : Int) →
      endTime start now =
        ((now.tv_sec * 1000000 + now.tv_usec) -
          (start.tv_sec * 1000000 + start.tv_usec)).toNat / 1000) := by
  refine ⟨?_, ?_, ?_, ?_, ?_⟩
  · intro h
    simp [sigchld_handler, h]
  · intro hfree h
    have hm : s.process_table.mutex ≠ 0 := by omega
    by_cases hs : si_pid = s.scheduler_pid
    · simp [sigchld_handler, hs]
    · simp only [sigchld_handler, if_true, ne_eq, hs, not_false_eq_true, sem_wait, hm, if_false]
      rw [sigchld_scan_none si_pid now s.process_table.history_count.toNat 0
        { s.process_table with mutex := s.process_table.mutex - 1 } (fun j hj1 hj2 =>
        h j hj1 (by simp only [zero_add] at hj2; omega))]
      rw [sem_post_after_wait s hfree]
  · intro hfree hs i hi1 hi2 hpid hfirst
    have hm : s.process_table.mutex ≠ 0 := by omega
    simp only [sigchld_handler, if_true, ne_eq, hs, not_false_eq_true, sem_wait, hm, if_false]
    rw [sigchld_scan_first si_pid now s.process_table.history_count.toNat 0 i
      { s.process_table with mutex := s.process_table.mutex - 1 } hi1
      (by simp only [zero_add]; omega) hpid (fun j hj1 hj2 => hfirst j hj1 hj2)]
    exact congrArg Except.ok (sem_post_setRecord_after_wait s i _ hfree)
  · intro hheld hs
    simp only [sigchld_handler, if_true, ne_eq, hs, not_false_eq_true, sem_wait, hheld]
  · intro start h1 h2
    simp only [endTime]
    rw [Int.emod_eq_of_lt (by omega) h2]

theorem sigchld_handler_free_or_held_witness :
    (∃ s1, sigchld_handler SIGCHLD 7 { tv_sec := 3, tv_usec := 0 } sampleShell = .ok s1 ∧
      (s1.process_table.history 1).completed = true ∧
      (s1.process_table.history 1).execution_time = 3000 ∧
      s1.process_table.history 2 = sampleShell.process_table.history 2 ∧
      s1.process_table.history 0 = sampleShell.process_table.history 0 ∧
      s1.process_table.mutex = 1 ∧ s1.process_table.history_count = 3) ∧
    (sampleShellHeld.process_table.history 1).pid = 7 ∧
    (sampleShellHeld.process_table.history 1).completed = false ∧
    sigchld_handler SIGCHLD 7 { tv_sec := 3, tv_usec := 0 } sampleShellHeld =
      .error Halt.blocked := by
  refine ⟨⟨_, (sigchld_handler_free_or_held sampleShell 7 ⟨3, 0⟩).2.2.1 (by decide)
    (by decide) 1 (by decide) (by decide) (by decide) (fun j hj1 hj2 => ?_), ?_⟩,
    by decide, by decide,
    (sigchld_handler_free_or_held sampleShellHeld 7 ⟨3, 0⟩).2.2.2.1 rfl (by decide)⟩
  · have hj : j = 0 := by omega
    subst hj; decide
  · simp [setRecord, sampleShell, zeroProcess, endTime, ULONG_MOD]

/-! ## Frame lemmas: which records a call may touch -/

theorem Frame.refl (i : Int) (s : Shell) : Frame i s s := ⟨rfl, fun _ _ => rfl⟩

theorem Frame.trans {i : Int} {s t u : Shell} (h1 : Frame i s t) (h2 : Frame i t u) :
    Frame i s u :=
  ⟨h2.1.trans h1.1, fun j hj => (h2.2 j hj).trans (h1.2 j hj)⟩

theorem Frame.modRecord (i : Int) (s : Shell) (f : Process → Process) :
    Frame i s (modRecord s i f) :=
  ⟨rfl, fun j hj => by simp [SimpleShell.modRecord, setRecord, hj]⟩

theorem Frame.emit (i : Int) (s : Shell) (es : List Event) : Frame i s (emit s es) :=
  ⟨rfl, fun _ _ => rfl⟩

theorem Frame.sem_post (i : Int) (s : Shell) : Frame i s (sem_post s) :=
  ⟨rfl, fun _ _ => rfl⟩

theorem sem_wait_ok {s s1 : Shell} (h : sem_wait s = .ok s1) :
    0 < s.process_table.mutex ∧
    s1 = { s with process_table :=
      { s.process_table with mutex := s.process_table.mutex - 1 } } := by
  unfold sem_wait at h
  split at h
  · cases h
  · cases h
    exact ⟨by omega, rfl⟩

theorem Frame.sem_wait (i : Int) {s s1 : Shell} (h : sem_wait s = .ok s1) : Frame i s s1 := by
  rw [(sem_wait_ok h).2]
  exact ⟨rfl, fun _ _ => rfl⟩

theorem terminateShell_frame (i : Int) {s t : Shell} (h : terminateShell s = .ok t) :
    Frame i s t := by
  unfold terminateShell at h
  split at h
  · cases h
  · rename_i s1 hw
    cases h
    refine (Frame.sem_wait i hw).trans ((?_ : Frame i s1 _).trans (Frame.sem_post i _))
    split
    · exact Frame.emit i _ _
    · exact Frame.refl i _

theorem submit_process_frame (env : Env) (command : CStr) {s t : Shell} {pid : Int}
    (h : submit_process env command s = .ok (pid, t)) :
    Frame s.process_table.history_count s t := by
  unfold submit_process at h
  simp only at h
  split at h
  · cases h
  · split at h
    · split at h
      · cases h
      · split at h
        · cases h
          exact (Frame.emit _ _ _).trans (Frame.modRecord _ _ _)
        · split at h
          · cases h
          · split at h
            · cases h
            · split at h
              · cases h
              · cases h
                exact (Frame.modRecord _ _ _).trans (Frame.emit _ _ _)
    · split at h
      · cases h
      · split at h
        · cases h
        · split at h
          · cases h
          · cases h
            exact Frame.emit _ _ _

theorem createChildProcess_frame (i : Int) (env : Env) (k : Nat) (command : CStr)
    (fi fo : Fd) {s t : Shell} {pid : Int}
    (h : createChildProcess env k command fi fo s = .ok (pid, t)) : Frame i s t := by
  unfold createChildProcess at h
  simp only at h
  split at h
  · cases h
  · split at h
    · cases h
    · cases h
      exact Frame.emit _ _ _

theorem pipeLoop_frame (i : Int) (env : Env) (cs : List CStr) (k : Nat) (fd : Fd)
    (pids : List Int) {s t : Shell} {fd1 : Fd} {pids1 : List Int}
    (h : pipeLoop env cs k fd pids s = .ok (fd1, pids1, t)) : Frame i s t := by
  induction cs generalizing k fd pids s with
  | nil =>
    simp only [pipeLoop] at h
    cases h
    exact Frame.refl _ _
  | cons c cs ih =>
    simp only [pipeLoop] at h
    split at h
    · cases h
    · split at h
      · cases h
      · rename_i pid s1 hc
        split at h
        · cases h
        · split at h
          · cases h
          · exact ((Frame.emit i _ _).trans (createChildProcess_frame i _ _ _ _ _ hc)).trans
              ((Frame.emit i _ _).trans (ih _ _ _ h))

theorem waitLoop_frame (i : Int) (env : Env) (ps : List Int) (k : Nat) {s t : Shell}
    (h : waitLoop env ps k s = .ok t) : Frame i s t := by
  induction ps generalizing k s with
  | nil =>
    simp only [waitLoop] at h
    cases h
    exact Frame.refl _ _
  | cons p ps ih =>
    simp only [waitLoop] at h
    split at h
    · cases h
    · exact (Frame.emit i _ _).trans (ih _ h)


theorem createProcessAndRun_frame (env : Env) (command : CStr) {s t : Shell} {st : Int}
    (h : createProcessAndRun env command s = .ok (st, t)) :
    Frame s.process_table.history_count s t := by
  unfold createProcessAndRun at h
  simp only at h
  split at h
  · cases h
  split at h
  · cases h
    exact Frame.emit _ _ _
  · split at h
    · cases h
    · rename_i fd pids s1 hp
      have f1 := pipeLoop_frame s.process_table.history_count _ _ _ _ _ hp
      split at h
      · cases h
      · rename_i last hl
        split at h
        · cases h
        · rename_i pid s2 hc
          have f2 := f1.trans (createChildProcess_frame s.process_table.history_count _ _ _ _ _ hc)
          split at h
          · cases h
          · split at h
            · cases h
            · rename_i s3 hw
              have f3 := f2.trans (Frame.sem_wait s.process_table.history_count hw)
              have f4 : Frame s.process_table.history_count s
                  (sem_post (modRecord s3 s3.process_table.history_count
                    fun r => { r with pid := pid })) := by
                rw [f3.1]
                exact f3.trans ((Frame.modRecord _ _ _).trans (Frame.sem_post _ _))
              split at h
              · split at h
                · cases h
                · rename_i s5 hwl
                  cases h
                  exact f4.trans (waitLoop_frame _ _ _ _ hwl)
              · cases h
                exact f4.trans (Frame.emit _ _ _)

theorem launch_frame (env : Env) (command : CStr) {s t : Shell} {st : Int}
    (h : launch env command s = .ok (st, t)) :
    (trim command = [] → st = 1 ∧ t = { s with process_table :=
        { s.process_table with history_count := s.process_table.history_count - 1 } }) ∧
    (trim command ≠ [] → Frame s.process_table.history_count s t) := by
  unfold launch at h
  simp only at h
  split at h
  · rename_i hkw
    have hne : trim command ≠ [] := by
      intro h0
      rw [h0] at hkw
      exact absurd hkw (by decide)
    refine ⟨fun h0 => absurd h0 hne, fun _ => ?_⟩
    split at h
    · cases h
    · rename_i s1 hw
      have f1 := Frame.sem_wait s.process_table.history_count hw
      split at h
      · cases h
      · rename_i pid s3 hs
        cases h
        have f2 : Frame s.process_table.history_count s s3 := by
          have hsp : Frame s1.process_table.history_count
              (modRecord s1 s1.process_table.history_count fun r =>
                { r with submit := true, completed := false, priority := 1, queue := false }) s3 :=
            submit_process_frame _ _ hs
          have h13 : Frame s1.process_table.history_count s1 s3 :=
            (Frame.modRecord _ _ _).trans hsp
          rw [f1.1] at h13
          exact f1.trans h13
        rw [f2.1]
        exact f2.trans ((Frame.modRecord _ _ _).trans (Frame.sem_post _ _))
  · split at h
    · rename_i _ hh
      have hne : trim command ≠ [] := by rw [hh]; decide
      refine ⟨fun h0 => absurd h0 hne, fun _ => ?_⟩
      split at h
      · cases h
      · rename_i s1 hw
        split at h
        · cases h
        · rename_i s2 ht
          cases h
          exact (Frame.sem_wait _ hw).trans ((terminateShell_frame _ ht).trans (Frame.sem_post _ _))
    · split at h
      · rename_i _ _ hh
        have hne : trim command ≠ [] := by rw [hh]; decide
        refine ⟨fun h0 => absurd h0 hne, fun _ => ?_⟩
        split at h
        · cases h
        · rename_i s1 hw
          cases h
          exact (Frame.sem_wait _ hw).trans ((Frame.emit _ _ _).trans (Frame.sem_post _ _))
      · split at h
        · rename_i _ _ _ hh
          cases h
          exact ⟨fun _ => ⟨rfl, rfl⟩, fun hne => absurd hh hne⟩
        · rename_i _ _ _ hne
          refine ⟨fun h0 => absurd h0 hne, fun _ => ?_⟩
          split at h
          · split at h
            · cases h
            · rename_i s1 ht
              cases h
              exact terminateShell_frame _ ht
          · exact createProcessAndRun_frame _ _ h


theorem read_user_input_ok {env : Env} {s s1 : Shell} {command : CStr}
    (h : read_user_input env s = .ok (command, s1)) :
    (∃ buf, env.fgets = some buf ∧ command = chomp buf) ∧
    Frame s.process_table.history_count s s1 := by
  unfold read_user_input at h
  split at h
  · cases h
  · rename_i buf hb
    simp only at h
    split at h
    · cases h
    · rename_i s0 hw
      cases h
      have f0 := Frame.sem_wait s.process_table.history_count hw
      refine ⟨⟨buf, hb, rfl⟩, ?_⟩
      rw [f0.1]
      exact f0.trans ((Frame.modRecord _ _ _).trans (Frame.sem_post _ _))

theorem finalize_count (env : Env) (s : Shell) :
    (finalize env s).process_table.history_count = s.process_table.history_count + 1 := by
  unfold finalize
  simp only
  split <;> rfl

theorem finalize_other (env : Env) (s : Shell) (j : Int)
    (hj : j ≠ s.process_table.history_count) :
    (finalize env s).process_table.history j = s.process_table.history j := by
  unfold finalize
  simp only
  split
  · simp [modRecord, setRecord, hj]
  · rfl

theorem finalize_at (env : Env) (s : Shell) :
    (finalize env s).process_table.history s.process_table.history_count =
      if (s.process_table.history s.process_table.history_count).submit then
        s.process_table.history s.process_table.history_count
      else
        { s.process_table.history s.process_table.history_count with
          execution_time :=
            endTime (s.process_table.history s.process_table.history_count).start env.t_end } := by
  unfold finalize
  simp only
  cases hsub : (s.process_table.history s.process_table.history_count).submit
  · simp [modRecord, setRecord, hsub]
  · simp [hsub]

/-- What one pass of the loop body does to the table: after a line that is not empty
the count has grown by one and only the record at the old count may differ; after an
empty line the count is as before and the record below it has its execution time
overwritten unless it is a submission. -/
theorem shell_iteration_frame {env : Env} {s t : Shell} {st : Int}
    (h : shell_iteration env s = .ok (st, t)) :
    ∃ buf, env.fgets = some buf ∧
      (trim (chomp buf) ≠ [] →
        t.process_table.history_count = s.process_table.history_count + 1 ∧
        ∀ j, j ≠ s.process_table.history_count →
          t.process_table.history j = s.process_table.history j) ∧
      (trim (chomp buf) = [] →
        t.process_table.history_count = s.process_table.history_count ∧
        (∀ j, j ≠ s.process_table.history_count → j ≠ s.process_table.history_count - 1 →
          t.process_table.history j = s.process_table.history j) ∧
        t.process_table.history (s.process_table.history_count - 1) =
          if (s.process_table.history (s.process_table.history_count - 1)).submit then
            s.process_table.history (s.process_table.history_count - 1)
          else
            { s.process_table.history (s.process_table.history_count - 1) with
              execution_time :=
                endTime (s.process_table.history (s.process_table.history_count - 1)).start
                  env.t_end }) := by
  unfold shell_iteration at h
  split at h
  · cases h
  · rename_i command s1 hr
    obtain ⟨⟨buf, hb, hcmd⟩, f1⟩ := read_user_input_ok hr
    have f1 : Frame s.process_table.history_count s s1 :=
      (Frame.emit _ _ _).trans f1
    split at h
    · cases h
    · rename_i s2 hw
      simp only at h
      have f2 := f1.trans (Frame.sem_wait s.process_table.history_count hw)
      have f3 : Frame s.process_table.history_count s
          (sem_post (modRecord s2 s2.process_table.history_count fun r =>
            { r with pid := -1, submit := false, wait_time := 0, execution_time := 0,
                     vruntime := 0, start := startTime env.t_loop })) := by
        rw [f2.1]
        exact f2.trans ((Frame.modRecord _ _ _).trans (Frame.sem_post _ _))
      generalize sem_post (modRecord s2 s2.process_table.history_count fun r =>
            { r with pid := -1, submit := false, wait_time := 0, execution_time := 0,
                     vruntime := 0, start := startTime env.t_loop }) = s3 at h f3
      split at h
      · cases h
      · rename_i status s4 hl
        have hlf := launch_frame _ _ hl
        split at h
        · cases h
        · rename_i s5 hw5
          cases h
          have f5 := Frame.sem_wait s.process_table.history_count hw5
          refine ⟨buf, hb, fun hne => ?_, fun he => ?_⟩
          · have f34 := hlf.2 (hcmd ▸ hne)
            rw [f3.1] at f34
            have f45 := (f3.trans f34).trans f5
            refine ⟨?_, fun j hj => ?_⟩
            · show (finalize env s5).process_table.history_count = _
              rw [finalize_count, f45.1]
            · show (finalize env s5).process_table.history j = _
              rw [finalize_other env s5 j (by rw [f45.1]; exact hj)]
              exact f45.2 j hj
          · obtain ⟨_, h4⟩ := hlf.1 (hcmd ▸ he)
            have hc5 : s5.process_table.history_count = s.process_table.history_count - 1 := by
              rw [f5.1, h4]; simp only; rw [f3.1]
            have hr5 : ∀ j, j ≠ s.process_table.history_count →
                s5.process_table.history j = s.process_table.history j := by
              intro j hj
              rw [f5.2 j hj, h4]
              exact f3.2 j hj
            have hm1 : s.process_table.history_count - 1 ≠ s.process_table.history_count := by
              omega
            refine ⟨?_, fun j hj1 hj2 => ?_, ?_⟩
            · show (finalize env s5).process_table.history_count = _
              rw [finalize_count, hc5]; omega
            · show (finalize env s5).process_table.history j = _
              rw [finalize_other env s5 j (by rw [hc5]; exact hj2)]
              exact hr5 j hj1
            · show (finalize env s5).process_table.history _ = _
              rw [← hc5, finalize_at, hc5, hr5 _ hm1]


/-! ## The completed flag -/

theorem sigchld_scan_completed (sender : Int) (now : timeval) (n : Nat) (i : Int)
    (pt : history_struct) :
    (sigchld_scan sender now n i pt).history_count = pt.history_count ∧
    ∀ j, (pt.history j).completed = true →
      ((sigchld_scan sender now n i pt).history j).completed = true := by
  induction n generalizing i with
  | zero => exact ⟨rfl, fun _ h => h⟩
  | succ n ih =>
    simp only [sigchld_scan]
    split
    · refine ⟨rfl, fun j hj => ?_⟩
      simp only [setRecord]
      split
      · rfl
      · exact hj
    · exact ih (i + 1)

theorem sigchld_handler_completed {signum si_pid : Int} {now : timeval} {s t : Shell}
    (h : sigchld_handler signum si_pid now s = .ok t) :
    t.process_table.history_count = s.process_table.history_count ∧
    ∀ j, (s.process_table.history j).completed = true →
      (t.process_table.history j).completed = true := by
  unfold sigchld_handler at h
  split at h
  · split at h
    · split at h
      · cases h
      · rename_i s1 hw
        cases h
        obtain ⟨_, h1⟩ := sem_wait_ok hw
        subst h1
        exact sigchld_scan_completed si_pid now _ 0 _
    · cases h
      exact ⟨rfl, fun _ hj => hj⟩
  · cases h
    exact ⟨rfl, fun _ hj => hj⟩

theorem shell_iteration_completed {env : Env} {s t : Shell} {st : Int}
    (h : shell_iteration env s = .ok (st, t)) :
    s.process_table.history_count ≤ t.process_table.history_count ∧
    ∀ j, j < s.process_table.history_count →
      (t.process_table.history j).completed = (s.process_table.history j).completed := by
  obtain ⟨buf, _, hne, he⟩ := shell_iteration_frame h
  by_cases hb : trim (chomp buf) = []
  · obtain ⟨h1, h2, h3⟩ := he hb
    refine ⟨by omega, fun j hj => ?_⟩
    by_cases hj1 : j = s.process_table.history_count - 1
    · subst hj1
      rw [h3]
      split <;> rfl
    · rw [h2 j (by omega) hj1]
  · obtain ⟨h1, h2⟩ := hne hb
    exact ⟨by omega, fun j hj => by rw [h2 j (by omega)]⟩

theorem step_completed {st : Step} {s t : Shell} (h : step st s = .ok t) :
    s.process_table.history_count ≤ t.process_table.history_count ∧
    ∀ i, i < s.process_table.history_count → (s.process_table.history i).completed = true →
      (t.process_table.history i).completed = true := by
  cases st with
  | line env =>
    simp only [step] at h
    split at h
    · cases h
    · rename_i status s1 hit
      cases h
      obtain ⟨h1, h2⟩ := shell_iteration_completed hit
      exact ⟨h1, fun i hi hc => by rw [h2 i hi]; exact hc⟩
  | signal signum si_pid now =>
    simp only [step] at h
    obtain ⟨h1, h2⟩ := sigchld_handler_completed h
    exact ⟨by omega, fun i _ hc => h2 i hc⟩

/-- C6: for every state and every step (one iteration of the control loop on any line and
any answers of the environment, or one call of the completion tracker with any pid)
that returns, a record at an index below `history_count` whose `completed` flag is true
before the step has it true after the step, and is still below `history_count`. -/
theorem completed_monotone (st : Step) (s t : Shell) (h : step st s = .ok t) (i : Int)
    (hi : i < s.process_table.history_count)
    (hc : (s.process_table.history i).completed = true) :
    (t.process_table.history i).completed = true ∧ i < t.process_table.history_count :=
  ⟨(step_completed h).2 i hi hc, by have := (step_completed h).1; omega⟩

theorem completed_monotone_witness :
    ∃ t, step (Step.line (sampleEnv "submit ls 2" 200)) sampleShell = .ok t ∧
      (t.process_table.history 0).completed = true ∧ 0 < t.process_table.history_count := by
  cases h : step (Step.line (sampleEnv "submit ls 2" 200)) sampleShell with
  | error e =>
    have hok : (step (Step.line (sampleEnv "submit ls 2" 200)) sampleShell).toBool = true := by
      decide
    rw [h] at hok
    exact absurd hok (by simp [Except.toBool])
  | ok t =>
    exact ⟨t, rfl, completed_monotone _ sampleShell t h 0 (by decide) (by decide)⟩

/-- The flag stays true along every sequence of steps. -/
theorem completed_monotone_run (steps : List Step) (s t : Shell) (h : run steps s = .ok t)
    (i : Int) (hi : i < s.process_table.history_count)
    (hc : (s.process_table.history i).completed = true) :
    (t.process_table.history i).completed = true ∧ i < t.process_table.history_count := by
  induction steps generalizing s with
  | nil =>
    simp only [run] at h
    cases h
    exact ⟨hc, hi⟩
  | cons st rest ih =>
    simp only [run] at h
    split at h
    · cases h
    · rename_i s1 hs
      have h1 := step_completed hs
      exact ih s1 h (by omega) (h1.2 i hi hc)

/-! ## The loop body around `launch` -/

theorem sem_post_finalize_after_wait (env : Env) (s : Shell)
    (hfree : 0 < s.process_table.mutex) :
    sem_post (finalize env { s with process_table :=
      { s.process_table with mutex := s.process_table.mutex - 1 } }) = finalize env s := by
  obtain ⟨⟨c, n, t, m, h⟩, sp, tr⟩ := s
  simp only at hfree
  have hm : m - 1 + 1 = m := by omega
  unfold finalize
  simp only
  split <;> simp [sem_post, modRecord, setRecord, hm]

theorem pendingState_reached (env : Env) (buf : CStr) (s : Shell)
    (hfree : 0 < s.process_table.mutex) :
    sem_post (modRecord
      { (sem_post (modRecord
          { (emit s [Event.print "AVShell:~$ "]) with process_table :=
            { s.process_table with mutex := s.process_table.mutex - 1 } }
          s.process_table.history_count fun r => { r with command := chomp buf })) with
        process_table :=
          { (sem_post (modRecord
              { (emit s [Event.print "AVShell:~$ "]) with process_table :=
                { s.process_table with mutex := s.process_table.mutex - 1 } }
              s.process_table.history_count
              fun r => { r with command := chomp buf })).process_table with
            mutex := s.process_table.mutex - 1 } }
      s.process_table.history_count fun r =>
        { r with pid := -1, submit := false, wait_time := 0, execution_time := 0,
                 vruntime := 0, start := startTime env.t_loop }) =
      pendingState env buf s := by
  obtain ⟨⟨c, n, t, m, h⟩, sp, tr⟩ := s
  simp only at hfree
  have hm : m - 1 + 1 = m := by omega
  simp only [pendingState, sem_post, modRecord, setRecord, emit, hm]
  congr 2
  funext j
  split <;> simp

/-- The loop body once its own three `sem_wait`s are known to pass: `launch` runs on the
pending state, and the block after it ends the iteration. -/
theorem shell_iteration_eq (env : Env) (buf : CStr) (s : Shell)
    (hread : env.fgets = some buf) (hfree : 0 < s.process_table.mutex) :
    shell_iteration env s =
      match launch env (chomp buf) (pendingState env buf s) with
      | .error h => .error h
      | .ok (status, s4) =>
        if s4.process_table.mutex = 0 then .error Halt.blocked
        else .ok (status, finalize env s4) := by
  have hm : s.process_table.mutex ≠ 0 := by omega
  have hm2 : s.process_table.mutex - 1 + 1 - 1 = s.process_table.mutex - 1 := by omega
  have hm3 : ¬ s.process_table.mutex - 1 + 1 = 0 := by omega
  simp only [shell_iteration, read_user_input, hread, sem_wait, emit, hm, if_false]
  simp only [sem_post, modRecord, setRecord, hm3, if_false, hm2]
  have hp := pendingState_reached env buf s hfree
  simp only [sem_post, modRecord, setRecord, emit, hm2] at hp
  rw [hp]
  generalize launch env (chomp buf) (pendingState env buf s) = r
  cases r with
  | error e => rfl
  | ok p =>
    obtain ⟨status, s4⟩ := p
    by_cases hm4 : s4.process_table.mutex = 0
    · simp only [hm4, if_true]
    · simp only [hm4, if_false]
      have := sem_post_finalize_after_wait env s4 (by omega)
      simp only [sem_post] at this
      rw [this]


/-! ## Pipelines with too many stages -/

theorem createProcessAndRun_overflow (env : Env) (command : CStr) (s : Shell)
    (h : MAX_COMMANDS < (strtok '|' command).length) :
    createProcessAndRun env command s = .error Halt.undefined := by
  have hn : ¬ (strtok '|' command).length ≤ MAX_COMMANDS := by omega
  simp only [createProcessAndRun, storesInside_argumentWrites]
  simp [hn]

/-- C7 (the code on more than five stages): on a command line that `strtok` splits at
`|` into more than `MAX_COMMANDS = 5` stages, the loop of `createProcessAndRun` stores a
stage at `commands[MAX_COMMANDS]`, past the array, before `command_count` is tested: the
behaviour is undefined from that store on, and the function is not shown to print the
message or to return `1`. -/
theorem too_many_stages_stored_before_test (env : Env) (command : CStr) (s : Shell)
    (h : MAX_COMMANDS < (strtok '|' command).length) :
    (∃ stage, (MAX_COMMANDS, stage) ∈ argumentWrites 0 (strtok '|' command)) ∧
    ¬ (MAX_COMMANDS < MAX_COMMANDS) ∧
    createProcessAndRun env command s = .error Halt.undefined :=
  ⟨argumentWrites_mem_of_lt _ _ h, Nat.lt_irrefl _, createProcessAndRun_overflow env command s h⟩

theorem too_many_stages_stored_before_test_witness :
    (5, "f".toList) ∈ argumentWrites 0 (strtok '|' "a|b|c|d|e|f".toList) ∧
    createProcessAndRun (sampleEnv "a|b|c|d|e|f" 200) "a|b|c|d|e|f".toList sampleShell =
      .error Halt.undefined ∧
    "a|b|c|d|e|f|g|h|i|j|k|l|m".toList.length ≤ MAX_SIZE ∧
    createProcessAndRun (sampleEnv "a|b|c|d|e|f|g|h|i|j|k|l|m" 200)
      "a|b|c|d|e|f|g|h|i|j|k|l|m".toList sampleShell = .error Halt.undefined :=
  ⟨by decide,
    (too_many_stages_stored_before_test (sampleEnv "a|b|c|d|e|f" 200) "a|b|c|d|e|f".toList
      sampleShell (by decide)).2.2,
    by decide,
    (too_many_stages_stored_before_test (sampleEnv "a|b|c|d|e|f|g|h|i|j|k|l|m" 200)
      "a|b|c|d|e|f|g|h|i|j|k|l|m".toList sampleShell (by decide)).2.2⟩

/-! ## The guard -/

theorem launch_history_blocked (env : Env) (s : Shell) (line : CStr)
    (hline : trim line = "history".toList) (hfree : s.process_table.mutex = 1) :
    launch env line s = .error Halt.blocked := by
  have h6 : ¬ List.take 6 (trim line) = "submit".toList := by rw [hline]; decide
  simp only [launch, h6, if_false, hline, if_true, sem_wait, hfree]
  simp [terminateShell, sem_wait]

/-- C10 (the code at the failing input `history`): with the guard free (counter 1),
`launch` takes the guard, which leaves the counter at 0, and then calls `terminateShell`,
whose own `sem_wait` finds the counter at 0: the call never returns, nothing is printed,
and `launch` does not return to the loop. -/
theorem history_waits_on_held_guard (env : Env) (s : Shell) (line : CStr)
    (hline : trim line = "history".toList) (hfree : s.process_table.mutex = 1) :
    ∃ s1, sem_wait s = .ok s1 ∧ s1.process_table.mutex = 0 ∧
      terminateShell s1 = .error Halt.blocked ∧
      launch env line s = .error Halt.blocked := by
  refine ⟨{ s with process_table := { s.process_table with mutex := 0 } }, ?_, rfl, ?_,
    launch_history_blocked env s line hline hfree⟩
  · simp [sem_wait, hfree]
  · simp [terminateShell, sem_wait]

theorem history_waits_on_held_guard_witness :
    launch (sampleEnv "history" 200) "history".toList (main_state 2 10 100) =
      .error Halt.blocked := by
  obtain ⟨_, _, _, _, h⟩ := history_waits_on_held_guard (sampleEnv "history" 200)
    (main_state 2 10 100) "history".toList (by decide) (by decide)
  exact h

/-! ## The count of records -/

/-- C5 (the code at the failing input `history`): when the line read is `history` and the
guard is free, the iteration of the control loop does not complete: it ends in the
second `sem_wait` on the guard `launch` already holds, and `history_count` is never
incremented. -/
theorem history_line_never_counted (env : Env) (s : Shell) (buf : CStr)
    (hread : env.fgets = some buf) (hline : trim (chomp buf) = "history".toList)
    (hfree : s.process_table.mutex = 1) :
    shell_iteration env s = .error Halt.blocked := by
  rw [shell_iteration_eq env buf s hread (by omega),
    launch_history_blocked env (pendingState env buf s) (chomp buf) hline hfree]

theorem history_line_never_counted_witness :
    shell_iteration (sampleEnv "history" 200) (main_state 2 10 100) = .error Halt.blocked :=
  history_line_never_counted _ _ ("history".toList ++ [Char.ofNat 10]) rfl (by decide)
    (by decide)

theorem launch_jobs (env : Env) (s : Shell) (line : CStr)
    (hline : trim line = "jobs".toList) (hfree : 0 < s.process_table.mutex) :
    launch env line s = .ok (1, emit s (jobRows s.process_table)) := by
  have h6 : ¬ List.take 6 (trim line) = "submit".toList := by rw [hline]; decide
  have hh : ¬ trim line = "history".toList := by rw [hline]; decide
  have hm : s.process_table.mutex ≠ 0 := by omega
  simp only [launch, h6, if_false, hh, hline, if_true, sem_wait, hm]
  obtain ⟨⟨c, n, t, m, h⟩, sp, tr⟩ := s
  simp only at hfree
  have hm1 : m - 1 + 1 = m := by omega
  simp [sem_post, emit, jobRows, hm1]

theorem shell_iteration_jobs (env : Env) (s : Shell) (buf : CStr)
    (hread : env.fgets = some buf) (hline : trim (chomp buf) = "jobs".toList)
    (hfree : 0 < s.process_table.mutex) :
    ∃ t, shell_iteration env s = .ok (1, t) ∧
      t.process_table.mutex = s.process_table.mutex ∧
      t.process_table.history_count = s.process_table.history_count + 1 ∧
      (t.process_table.history s.process_table.history_count).command = chomp buf := by
  refine ⟨finalize env (emit (pendingState env buf s)
    (jobRows (pendingState env buf s).process_table)), ?_, ?_, ?_, ?_⟩
  · rw [shell_iteration_eq env buf s hread hfree,
      launch_jobs env (pendingState env buf s) (chomp buf) hline hfree]
    have hm : (emit (pendingState env buf s)
        (jobRows (pendingState env buf s).process_table)).process_table.mutex ≠ 0 := by
      show s.process_table.mutex ≠ 0
      omega
    simp only [hm, if_false]
  · unfold finalize
    simp only
    split <;> rfl
  · rw [finalize_count]
    rfl
  · have h := finalize_at env (emit (pendingState env buf s)
      (jobRows (pendingState env buf s).process_table))
    have hc : (emit (pendingState env buf s)
        (jobRows (pendingState env buf s).process_table)).process_table.history_count =
        s.process_table.history_count := rfl
    rw [hc] at h
    rw [h]
    simp [emit, pendingState, modRecord, setRecord]

theorem shell_loop_jobs (env : Env) (buf : CStr) (hread : env.fgets = some buf)
    (hline : trim (chomp buf) = "jobs".toList) (n : Nat) (s : Shell)
    (hfree : 0 < s.process_table.mutex) :
    ∃ t, shell_loop (List.replicate n env) s = .ok t ∧
      t.process_table.mutex = s.process_table.mutex ∧
      t.process_table.history_count = s.process_table.history_count + n ∧
      (0 < n → (t.process_table.history (s.process_table.history_count + n - 1)).command =
        chomp buf) := by
  induction n generalizing s with
  | zero => exact ⟨s, rfl, rfl, by simp, fun h => absurd h (by decide)⟩
  | succ n ih =>
    obtain ⟨s1, h1, hm1, hc1, hr1⟩ := shell_iteration_jobs env s buf hread hline hfree
    obtain ⟨t, h2, hm2, hc2, hr2⟩ := ih s1 (by omega)
    refine ⟨t, ?_, by omega, by rw [hc2, hc1]; push_cast; omega, fun _ => ?_⟩
    · simp only [List.replicate_succ, shell_loop, h1]
      simpa using h2
    · rcases Nat.eq_zero_or_pos n with h0 | hpos
      · subst h0
        simp only [List.replicate_zero, shell_loop] at h2
        cases h2
        simpa using hr1
      · have := hr2 hpos
        rw [hc1] at this
        have he : s.process_table.history_count + ((n + 1 : Nat) : Int) - 1 =
            s.process_table.history_count + 1 + (n : Int) - 1 := by push_cast; omega
        rw [he]
        exact this

/-- C8 (the code at failing inputs): starting from the state `main` sets up, 101 lines
`jobs` are all stored: the loop ends with `history_count = 101` and the last line in the
record at index 100, which is not below `MAX_HISTORY`; and an empty first line makes the
loop write the execution time of the record at index -1. -/
theorem table_capacity_not_enforced :
    (∃ t, shell_loop (List.replicate 101 (sampleEnv "jobs" 200)) (main_state 2 10 100) = .ok t ∧
      t.process_table.history_count = 101 ∧
      (t.process_table.history 100).command = "jobs".toList ∧
      ¬ ((100 : Int) < (MAX_HISTORY : Int))) ∧
    (∃ t, shell_iteration (sampleEnv "" 200) (main_state 2 10 100) = .ok (1, t) ∧
      ((main_state 2 10 100).process_table.history (-1)).execution_time = 0 ∧
      (t.process_table.history (-1)).execution_time = 12500) := by
  constructor
  · obtain ⟨t, h1, _, h3, h4⟩ := shell_loop_jobs (sampleEnv "jobs" 200)
      ("jobs".toList ++ [Char.ofNat 10]) rfl (by decide) 101 (main_state 2 10 100) (by decide)
    refine ⟨t, h1, by rw [h3]; rfl, ?_, by decide⟩
    have := h4 (by decide)
    simp only [main_state] at this
    rw [show ((0 : Int) + ((101 : Nat) : Int) - 1) = 100 by decide] at this
    rw [this]
    decide
  · cases h : shell_iteration (sampleEnv "" 200) (main_state 2 10 100) with
    | error e =>
      have hok : (shell_iteration (sampleEnv "" 200) (main_state 2 10 100)).toBool = true := by
        decide
      rw [h] at hok
      exact absurd hok (by simp [Except.toBool])
    | ok p =>
      obtain ⟨st, t⟩ := p
      obtain ⟨buf, hb, _, he⟩ := shell_iteration_frame h
      have hbuf : buf = [Char.ofNat 10] := by
        have : (sampleEnv "" 200).fgets = some [Char.ofNat 10] := rfl
        rw [this] at hb
        exact (Option.some.inj hb).symm
      subst hbuf
      obtain ⟨_, _, h3⟩ := he (by decide)
      have hst : st = 1 := by
        have h1 : (shell_iteration (sampleEnv "" 200) (main_state 2 10 100)).toOption.map Prod.fst
            = some 1 := by decide
        rw [h] at h1
        simpa [Except.toOption] using h1
      subst hst
      refine ⟨t, rfl, rfl, ?_⟩
      simp only [main_state] at h3
      rw [show ((0 : Int) - 1) = -1 by decide] at h3
      rw [h3]
      decide

/-! ## The argument vector -/

/-- C9 (the code at failing inputs): the line `submit a b c d e f g h i j k 2` has 30
characters; the loop of `submit_process` stores its 12 tokens at `arguments[0..11]`, the
last one outside the `MAX_WORDS+1` slots, so the submission is neither rejected nor cut
at the cap: the store past the array is made and the behaviour is undefined from there
on.  The loop of `createChildProcess` stores the 12 tokens of
`echo a b c d e f g h i j k` in the same way. -/
theorem argument_tokens_not_capped :
    "submit a b c d e f g h i j k 2".toList.length ≤ MAX_SIZE ∧
    (argumentWrites 0 (submitTokens "submit a b c d e f g h i j k 2".toList)).length = 12 ∧
    (11, "2".toList) ∈ argumentWrites 0 (submitTokens "submit a b c d e f g h i j k 2".toList) ∧
    ¬ (11 < MAX_WORDS + 1) ∧
    launch (sampleEnv "submit a b c d e f g h i j k 2" 200)
        "submit a b c d e f g h i j k 2".toList (main_state 2 10 100) =
      .error Halt.undefined ∧
    "echo a b c d e f g h i j k".toList.length ≤ MAX_SIZE ∧
    (11, "k".toList) ∈ argumentWrites 0 (strtok ' ' "echo a b c d e f g h i j k".toList) ∧
    (childArguments "echo a b c d e f g h i j k".toList).length = 12 := by
  refine ⟨by decide, by decide, by decide, by decide, ?_, by decide, by decide, by decide⟩
  exact launch_submit_of_error _ _ _ _ (by decide) (by decide)
    (fun t => submit_process_overflow _ t _ (by decide))

/-! ## Empty lines -/

theorem launch_empty (env : Env) (s : Shell) (line : CStr) (hline : trim line = []) :
    launch env line s = .ok (1, { s with process_table :=
      { s.process_table with history_count := s.process_table.history_count - 1 } }) := by
  have h6 : ¬ List.take 6 ([] : CStr) = "submit".toList := by decide
  have hh : ¬ ([] : CStr) = "history".toList := by decide
  have hj : ¬ ([] : CStr) = "jobs".toList := by decide
  simp only [launch, hline, h6, hh, hj, if_false, if_true]

theorem shell_iteration_empty (env : Env) (s : Shell) (buf : CStr)
    (hread : env.fgets = some buf) (hempty : trim (chomp buf) = [])
    (hfree : 0 < s.process_table.mutex) :
    ∃ t, shell_iteration env s = .ok (1, t) := by
  refine ⟨finalize env { pendingState env buf s with process_table :=
    { (pendingState env buf s).process_table with
      history_count := (pendingState env buf s).process_table.history_count - 1 } }, ?_⟩
  rw [shell_iteration_eq env buf s hread hfree,
    launch_empty env (pendingState env buf s) (chomp buf) hempty]
  exact if_neg (by show ¬ s.process_table.mutex = 0; omega)

/-- C11 (the code on an empty line): in every state with `history_count >= 1`, the guard
free, whose most recently appended record is not a submission, the iteration on an
empty or blank line returns with `history_count` as before, but the record at
`history_count - 1` has its `execution_time` replaced by `endTime` of its own start,
read at the end of this iteration; its other fields and the records below it are as
before. -/
theorem empty_line_overwrites_previous_time (env : Env) (s : Shell) (buf : CStr)
    (hread : env.fgets = some buf) (hempty : trim (chomp buf) = [])
    (hfree : 0 < s.process_table.mutex)
    (_hcount : 1 ≤ s.process_table.history_count)
    (hsub : (s.process_table.history (s.process_table.history_count - 1)).submit = false) :
    ∃ t, shell_iteration env s = .ok (1, t) ∧
      t.process_table.history_count = s.process_table.history_count ∧
      t.process_table.history (s.process_table.history_count - 1) =
        { s.process_table.history (s.process_table.history_count - 1) with
          execution_time :=
            endTime (s.process_table.history (s.process_table.history_count - 1)).start
              env.t_end } ∧
      ∀ j, j < s.process_table.history_count - 1 →
        t.process_table.history j = s.process_table.history j := by
  obtain ⟨t, ht⟩ := shell_iteration_empty env s buf hread hempty hfree
  obtain ⟨buf1, hb1, _, he⟩ := shell_iteration_frame ht
  have hbuf : buf1 = buf := by
    rw [hread] at hb1
    exact (Option.some.inj hb1).symm
  subst hbuf
  obtain ⟨h1, h2, h3⟩ := he hempty
  refine ⟨t, ht, h1, ?_, fun j hj => h2 j (by omega) (by omega)⟩
  rw [h3, hsub]
  simp

theorem empty_line_overwrites_previous_time_witness :
    ∃ s1 t, shell_iteration (sampleEnv "jobs" 200) (main_state 2 10 100) = .ok (1, s1) ∧
      shell_iteration sampleEmptyLineEnv s1 = .ok (1, t) ∧
      s1.process_table.history_count = 1 ∧ t.process_table.history_count = 1 ∧
      (s1.process_table.history 0).execution_time = 2500 ∧
      (t.process_table.history 0).execution_time = 11000 := by
  cases h : shell_iteration (sampleEnv "jobs" 200) (main_state 2 10 100) with
  | error e =>
    have hok : (shell_iteration (sampleEnv "jobs" 200) (main_state 2 10 100)).toBool = true := by
      decide
    rw [h] at hok
    exact absurd hok (by simp [Except.toBool])
  | ok p =>
    obtain ⟨st, s1⟩ := p
    have hobs : (shell_iteration (sampleEnv "jobs" 200) (main_state 2 10 100)).toOption.map
        (fun p => (p.1, p.2.process_table.history_count, p.2.process_table.mutex,
          (p.2.process_table.history 0).submit, (p.2.process_table.history 0).start,
          (p.2.process_table.history 0).execution_time)) =
        some (1, 1, 1, false, { tv_sec := 10, tv_usec := 0 }, 2500) := by decide
    rw [h] at hobs
    simp only [Except.toOption, Option.map_some', Option.some.injEq, Prod.mk.injEq] at hobs
    obtain ⟨hst, hc, hm, hs, hstart, hex⟩ := hobs
    subst hst
    obtain ⟨t, ht, htc, hrec, _⟩ := empty_line_overwrites_previous_time sampleEmptyLineEnv s1
      [Char.ofNat 10] rfl (by decide) (by omega) (by omega) (by rw [hc]; exact hs)
    refine ⟨s1, t, rfl, ht, hc, by omega, hex, ?_⟩
    rw [hc] at hrec
    rw [show ((1 : Int) - 1) = 0 by decide] at hrec
    rw [hrec]
    simp only [hstart]
    decide

end SimpleShell
